import Mathlib

/-!
Shallow embedding of the session-control component
(src/components/installer-webhook/src/control.rs) of the tessia
installer-webhook.

Modelling conventions:
* `std::time::Instant` is modelled as a `Nat` counting nanoseconds;
  `Duration::as_secs` is integer division by 10^9 and
  `saturating_duration_since` is truncated `Nat` subtraction, which
  saturates at zero exactly like the Rust function.
* `BTreeMap<usize, Event>` is modelled as a sorted association list
  `List (Nat × Event)` with an order-preserving, key-replacing insert
  (`btInsert`).  `BTreeMap::range(start..end)` panics in Rust when
  `start > end`; a panic is modelled as `none`, so range queries return
  `Option`.
* `HashMap<SessionId, Session>` is modelled as an association list with
  unique keys (`hmInsert` replaces in place, like `HashMap::insert`).
* Environment inputs of the real code (wall-clock `Instant::now()`, the
  success of `File::create` for the shared `events.log`) are passed as
  explicit parameters (`Env`).  File writes have no effect on the
  in-memory state and are not modelled beyond the tri-state transition.
-/

set_option autoImplicit false

namespace InstallerWebhook

/-- Tri-state of the lazily opened log resource (`TriState<std::fs::File>`
in the source); the file handle itself carries no in-memory information
relevant to the control state, so `Yes` has no payload. -/
inductive TriState where
  | Yes
  | Maybe
  | Never
deriving Repr, DecidableEq

/-- Events accepted by a session (`enum Event` in the source).  Byte
payloads are lists of bytes; only their length is observable through the
query interface. -/
inductive Event where
  | Text (t : String)
  | Raw (ident : String) (data : List Nat)
deriving Repr, DecidableEq

/-- Text representation of an event (the `Display` impl in the source):
Text events are represented as themselves, raw events only indicate name
and length. -/
def Event.render : Event → String
  | .Text t => t
  | .Raw ident d => "binary:" ++ ident ++ ":" ++ toString d.length

/-- Ordered insert into a sorted association list, replacing an existing
key: the model of `BTreeMap::insert`. -/
def btInsert : List (Nat × Event) → Nat → Event → List (Nat × Event)
  | [], k, v => [(k, v)]
  | (k', v') :: rest, k, v =>
    if k < k' then (k, v) :: (k', v') :: rest
    else if k = k' then (k, v) :: rest
    else (k', v') :: btInsert rest k v

/-- Installation session (`struct Session` in the source). -/
structure Session where
  id : String
  log_path : String
  timeout : Nat
  secret : String
  log : List (Nat × Event)
  file_descriptor : TriState
  last_updated : Nat
deriving Repr, DecidableEq

/-- Information required to start a session (`struct SessionInit`). -/
structure SessionInit where
  id : String
  log_path : String
  timeout : Nat
  secret : String
deriving Repr, DecidableEq

/-- Session constructor (`Session::new`): empty log, unresolved
tri-state, timestamp taken from the current instant. -/
def Session.new (init : SessionInit) (now : Nat) : Session :=
  { id := init.id
    log_path := init.log_path
    timeout := init.timeout
    secret := init.secret
    log := []
    file_descriptor := TriState.Maybe
    last_updated := now }

/-- Add an event (`Session::add_log_entry`): insert at key `log.len()`,
refresh the activity timestamp, resolve an unresolved tri-state according
to whether `File::create` succeeded (`fsOk`).  The subsequent file writes
do not change the in-memory state. -/
def Session.add_log_entry (s : Session) (event : Event) (now : Nat)
    (fsOk : Bool) : Session :=
  let key := s.log.length
  { s with
    log := btInsert s.log key event
    last_updated := now
    file_descriptor :=
      match s.file_descriptor with
      | TriState.Maybe => if fsOk then TriState.Yes else TriState.Never
      | other => other }

/-- Retrieve a range of events (`Session::get_log_entries`).
`BTreeMap::range(start.._end)` panics when `start > _end`; the panic is
modelled as `none`. -/
def Session.get_log_entries (s : Session) (start : Nat)
    (stop : Option Nat) : Option (List String) :=
  match stop with
  | some e =>
    if e < start then none
    else some (((s.log.filter fun p => decide (start ≤ p.1) &&
      decide (p.1 < e)).map fun p => p.2.render))
  | none =>
    some (((s.log.filter fun p => decide (start ≤ p.1)).map
      fun p => p.2.render))

/-- Event authorization data (`struct EventAuth`). -/
structure EventAuth where
  ident : String
  signature : String
deriving Repr, DecidableEq

/-- Model of the Rust standard function str::trim: remove leading and
trailing whitespace characters. -/
def strTrim (s : String) : String :=
  String.mk
    (((s.toList.dropWhile Char.isWhitespace).reverse.dropWhile
      Char.isWhitespace).reverse)

/-- Verify signature of the incoming event (`EventAuth::verify`):
trimmed equality of the claimed signature and the stored secret. -/
def EventAuth.verify (a : EventAuth) (secret : String) : Bool :=
  strTrim a.signature == strTrim secret

/-- Lookup in the model of `HashMap<SessionId, Session>`. -/
def hmGet : List (String × Session) → String → Option Session
  | [], _ => none
  | (k', v') :: rest, k => if k = k' then some v' else hmGet rest k

/-- Insert into the model of the session registry, replacing an existing
entry in place (`HashMap::insert`). -/
def hmInsert : List (String × Session) → String → Session →
    List (String × Session)
  | [], k, v => [(k, v)]
  | (k', v') :: rest, k, v =>
    if k = k' then (k, v) :: rest else (k', v') :: hmInsert rest k v

/-- Remove from the model of the session registry (`HashMap::remove`). -/
def hmRemove : List (String × Session) → String → List (String × Session)
  | [], _ => []
  | (k', v') :: rest, k =>
    if k = k' then rest else (k', v') :: hmRemove rest k

/-- Session control (`struct Control`): owner of the session registry. -/
structure Control where
  sessions : List (String × Session)
deriving Repr, DecidableEq

/-- Messages passed to control (`enum ControlMsg`). -/
inductive ControlMsg where
  | CreateSession (init : SessionInit)
  | RemoveSession (id : String)
  | AddEvent (event : Event) (auth : EventAuth)
  | GetEvents (session_id : String) (first_entry : Nat) (last_entry : Nat)
  | Cleanup
  | Shutdown
deriving Repr, DecidableEq

/-- Responses from control (`enum ControlMsgResponse`). -/
inductive ControlMsgResponse where
  | Success
  | Failure
  | EventsData (v : List String)
deriving Repr, DecidableEq

/-- Environment inputs of one message-handling step: the wall-clock
instant (`Instant::now()`, in nanoseconds) and whether `File::create`
for the shared events.log would succeed. -/
structure Env where
  now : Nat
  fsOk : Bool
deriving Repr, DecidableEq

/-- Initialize control struct (`Control::new`). -/
def Control.new : Control := ⟨[]⟩

/-- Attempt to add a new session (`Control::add_session`): insert or
replace by id, returns true in both branches. -/
def Control.add_session (c : Control) (session : Session) :
    Bool × Control :=
  (true, ⟨hmInsert c.sessions session.id session⟩)

/-- Attempt to remove a session (`Control::remove_session`): returns
whether the id was present. -/
def Control.remove_session (c : Control) (session_id : String) :
    Bool × Control :=
  ((hmGet c.sessions session_id).isSome, ⟨hmRemove c.sessions session_id⟩)

/-- Process incoming log event (`Control::process_event`). -/
def Control.process_event (c : Control) (evt : Event) (auth : EventAuth)
    (now : Nat) (fsOk : Bool) : Except String Control :=
  match hmGet c.sessions auth.ident with
  | some session =>
    if !(auth.verify session.secret) then
      Except.error "Invalid authorization token"
    else
      Except.ok ⟨hmInsert c.sessions auth.ident
        (session.add_log_entry evt now fsOk)⟩
  | none => Except.error "Session ident expired or non-existing"

/-- Get list of events (`Control::get_event_list`); `last_entry == 0`
selects the unbounded tail.  `none` models the panic propagated from
`get_log_entries`. -/
def Control.get_event_list (c : Control) (session_id : String)
    (first_entry last_entry : Nat) : Option (Except String (List String)) :=
  match hmGet c.sessions session_id with
  | some session =>
    if last_entry = 0 then
      (session.get_log_entries first_entry none).map Except.ok
    else
      (session.get_log_entries first_entry (some last_entry)).map Except.ok
  | none => some (Except.error "Session ident expired or non-existing")

/-- Seconds of a duration given in nanoseconds (`Duration::as_secs`). -/
def durAsSecs (nanos : Nat) : Nat := nanos / 1000000000

/-- Cleanup sessions that were not updated for their timeout
(`Control::cleanup`): retain a session when the saturating elapsed
duration, in whole seconds, is less than its timeout.  Returns the
number of removed sessions. -/
def Control.cleanup (c : Control) (at_time : Option Nat) (wall_now : Nat) :
    Nat × Control :=
  let now := at_time.getD wall_now
  let retained := c.sessions.filter fun p =>
    decide (durAsSecs (now - p.2.last_updated) < p.2.timeout)
  (c.sessions.length - retained.length, ⟨retained⟩)

/-- Handle control message (`Control::handle_message`).  The outer
`Option` models a panic (reachable only through GetEvents); the inner
`Except Unit` is the `Result<ControlMsgResponse, ()>` of the source,
whose error case signals shutdown. -/
def Control.handle_message (c : Control) (message : ControlMsg)
    (env : Env) : Option (Except Unit (ControlMsgResponse × Control)) :=
  match message with
  | ControlMsg.CreateSession init_data =>
    let session := Session.new init_data env.now
    match c.add_session session with
    | (true, c') => some (Except.ok (ControlMsgResponse.Success, c'))
    | (false, c') => some (Except.ok (ControlMsgResponse.Failure, c'))
  | ControlMsg.RemoveSession id =>
    match c.remove_session id with
    | (true, c') => some (Except.ok (ControlMsgResponse.Success, c'))
    | (false, c') => some (Except.ok (ControlMsgResponse.Failure, c'))
  | ControlMsg.AddEvent event auth =>
    match c.process_event event auth env.now env.fsOk with
    | Except.ok c' => some (Except.ok (ControlMsgResponse.Success, c'))
    | Except.error _ => some (Except.ok (ControlMsgResponse.Failure, c))
  | ControlMsg.GetEvents sid fe le =>
    match c.get_event_list sid fe le with
    | some (Except.ok v) =>
      some (Except.ok (ControlMsgResponse.EventsData v, c))
    | some (Except.error _) =>
      some (Except.ok (ControlMsgResponse.Failure, c))
    | none => none
  | ControlMsg.Cleanup =>
    let r := c.cleanup none env.now
    some (Except.ok (ControlMsgResponse.Success, r.2))
  | ControlMsg.Shutdown => some (Except.error ())

/-- Run a sequence of control messages from a starting state; the actor
loop stops at Shutdown (and a panic stops it too, leaving the state as
it was when the panicking message arrived). -/
def Control.run : Control → List (ControlMsg × Env) → Control
  | c, [] => c
  | c, (m, env) :: rest =>
    match c.handle_message m env with
    | some (Except.ok (_, c')) => Control.run c' rest
    | some (Except.error _) => c
    | none => c

/-- Characters after the last slash of a character list: the model of
`ident.rsplit('/').next()` of the source. -/
def afterLastSlash (l : List Char) : List Char :=
  l.foldl (fun acc c => if c = '/' then [] else acc ++ [c]) []

/-- Generate a filename that is safe to use in the log directory
(`safe_filename` in the source): the substring after the last slash when
it is nonempty, with a fixed marker; otherwise a literal fallback. -/
def safe_filename (ident : String) : String :=
  let trail := String.mk (afterLastSlash ident.toList)
  if trail.isEmpty then "file_binary" else "file_" ++ trail

/-- Fold the per-call environment and event of a sequence of accepted
AddEvent calls into a session via `add_log_entry`. -/
def addAll (s : Session) (calls : List (Event × Nat × Bool)) : Session :=
  calls.foldl (fun s c => s.add_log_entry c.1 c.2.1 c.2.2) s

/-- The log-shape invariant: keys of the event log are exactly the
consecutive naturals 0, 1, ..., len-1 in order. -/
def goodLog (s : Session) : Prop :=
  s.log.map Prod.fst = List.range s.log.length

/-- The registry-wide log-shape invariant. -/
def goodCtl (c : Control) : Prop :=
  ∀ p ∈ c.sessions, goodLog p.2

/-- A sample session-creation payload, used for concrete instantiations
of the theorems below. -/
def initA : SessionInit :=
  { id := "1", log_path := "lp", timeout := 10, secret := "secret" }

/-- A sample environment for concrete instantiations. -/
def envA : Env := { now := 0, fsOk := true }

/-- A sample accepted-call sequence for concrete instantiations. -/
def callsA : List (Event × Nat × Bool) := [(Event.Text "A", 1, true)]

/-- A registry holding one sample session. -/
def ctlA : Control := ⟨[("1", Session.new initA 0)]⟩

/-- A sample message sequence: create a session, then post one accepted
text event to it. -/
def msgsA : List (ControlMsg × Env) :=
  [(ControlMsg.CreateSession initA, envA),
   (ControlMsg.AddEvent (Event.Text "A") ⟨"1", "secret"⟩, envA)]

/-- The session state produced by running msgsA, spelled out. -/
def sessA : Session :=
  { id := "1", log_path := "lp", timeout := 10, secret := "secret",
    log := [(0, Event.Text "A")], file_descriptor := TriState.Yes,
    last_updated := 0 }

/-- A sample session whose last update lies in the future of the sample
cleanup instant. -/
def sessB : Session :=
  { id := "1", log_path := "lp", timeout := 10, secret := "s", log := [],
    file_descriptor := TriState.Maybe, last_updated := 5000000000 }

/-- A registry holding the future-updated sample session. -/
def ctlB : Control := ⟨[("1", sessB)]⟩

/-- Inserting a key strictly above every present key appends. -/
theorem btInsert_of_lt (l : List (Nat × Event)) (k : Nat) (v : Event)
    (h : ∀ p ∈ l, p.1 < k) : btInsert l k v = l ++ [(k, v)] := by
  induction l with
  | nil => rfl
  | cons hd tl ih =>
    have hh : hd.1 < k := h hd (List.mem_cons_self hd tl)
    simp only [btInsert]
    rw [if_neg (by omega), if_neg (by omega)]
    simp [ih fun p hp => h p (List.mem_cons_of_mem hd hp)]

/-- Under the log-shape invariant, adding an entry appends it at key
equal to the current length. -/
theorem add_log_entry_log (s : Session) (e : Event) (now : Nat) (b : Bool)
    (h : goodLog s) :
    (s.add_log_entry e now b).log = s.log ++ [(s.log.length, e)] := by
  simp only [Session.add_log_entry]
  exact btInsert_of_lt s.log s.log.length e fun p hp => by
    have : p.1 ∈ s.log.map Prod.fst := List.mem_map_of_mem Prod.fst hp
    rw [h] at this
    exact List.mem_range.mp this

/-- The log-shape invariant is preserved by adding an entry. -/
theorem goodLog_add_log_entry (s : Session) (e : Event) (now : Nat)
    (b : Bool) (h : goodLog s) : goodLog (s.add_log_entry e now b) := by
  have h' : s.log.map Prod.fst = List.range s.log.length := h
  unfold goodLog
  rw [add_log_entry_log s e now b h]
  simp [h', List.range_succ]

/-- Under the log-shape invariant, the log after a sequence of accepted
calls is the prior log extended by the new events, keyed consecutively
from the prior length. -/
theorem addAll_log (calls : List (Event × Nat × Bool)) (s : Session)
    (h : goodLog s) :
    (addAll s calls).log
      = s.log ++ List.enumFrom s.log.length (calls.map Prod.fst) := by
  induction calls generalizing s with
  | nil => simp [addAll]
  | cons c rest ih =>
    have hstep := add_log_entry_log s c.1 c.2.1 c.2.2 h
    have hgood := goodLog_add_log_entry s c.1 c.2.1 c.2.2 h
    have hlen : (s.add_log_entry c.1 c.2.1 c.2.2).log.length
        = s.log.length + 1 := by
      rw [hstep]; simp
    have := ih (s.add_log_entry c.1 c.2.1 c.2.2) hgood
    simp only [addAll, List.foldl_cons] at *
    rw [this, hstep]
    simp [List.enumFrom, List.append_assoc]

/-- The log-shape invariant holds for the session built by a sequence of
accepted calls on a session that satisfied it. -/
theorem goodLog_addAll (calls : List (Event × Nat × Bool)) (s : Session)
    (h : goodLog s) : goodLog (addAll s calls) := by
  induction calls generalizing s with
  | nil => simpa [addAll]
  | cons c rest ih =>
    have hgood := goodLog_add_log_entry s c.1 c.2.1 c.2.2 h
    simpa only [addAll, List.foldl_cons] using
      ih (s.add_log_entry c.1 c.2.1 c.2.2) hgood

/-- Rendering the tail of an enumerated event list at or above a start
key is dropping the corresponding prefix. -/
theorem enumFrom_filter_ge (l : List Event) (n start : Nat) :
    ((List.enumFrom n l).filter fun p => decide (start ≤ p.1)).map
        (fun p => p.2.render)
      = (l.map Event.render).drop (start - n) := by
  induction l generalizing n with
  | nil => simp
  | cons e rest ih =>
    simp only [List.enumFrom, List.filter, List.map_cons]
    by_cases hs : start ≤ n
    · rw [decide_eq_true hs]
      have h0 : start - n = 0 := by omega
      have h1 : start - (n + 1) = 0 := by omega
      have := ih (n + 1)
      rw [h1, List.drop_zero] at this
      simp [this, h0]
    · rw [decide_eq_false hs]
      have h1 : start - n = (start - (n + 1)) + 1 := by omega
      rw [ih (n + 1), h1, List.drop_succ_cons]

/-- Rendering a bounded key range of an enumerated event list is a
drop-then-take slice. -/
theorem enumFrom_filter_between (l : List Event) (n start e : Nat) :
    ((List.enumFrom n l).filter fun p =>
        decide (start ≤ p.1) && decide (p.1 < e)).map (fun p => p.2.render)
      = ((l.map Event.render).drop (start - n)).take (e - max n start) := by
  induction l generalizing n with
  | nil => simp
  | cons ev rest ih =>
    simp only [List.enumFrom, List.filter, List.map_cons]
    by_cases hs : start ≤ n
    · have h0 : start - n = 0 := by omega
      have h1 : start - (n + 1) = 0 := by omega
      have hmax : max n start = n := by omega
      by_cases he : n < e
      · rw [decide_eq_true hs, decide_eq_true he]
        have := ih (n + 1)
        rw [h1, List.drop_zero] at this
        have hmax1 : max (n + 1) start = n + 1 := by omega
        rw [hmax1] at this
        have htake : e - n = (e - (n + 1)) + 1 := by omega
        simp [this, h0, hmax, htake]
      · rw [decide_eq_true hs, decide_eq_false he]
        have := ih (n + 1)
        rw [h1, List.drop_zero] at this
        have hmax1 : max (n + 1) start = n + 1 := by omega
        rw [hmax1] at this
        have h2 : e - (n + 1) = 0 := by omega
        have h3 : e - n = 0 := by omega
        rw [h2] at this
        simp only [Bool.and_true, Bool.and_false]
        simp [this, h0, hmax, h3]
    · have hge : ¬ (start ≤ n) := hs
      rw [decide_eq_false hge]
      have hmax : max n start = start := by omega
      have hmax1 : max (n + 1) start = start := by omega
      have h1 : start - n = (start - (n + 1)) + 1 := by omega
      have := ih (n + 1)
      rw [hmax1] at this
      simp only [Bool.false_and]
      simp only [decide_eq_true_eq] at *
      rw [this, hmax, h1, List.drop_succ_cons]

/-- Lookup after inserting a key finds the inserted value. -/
theorem hmGet_hmInsert_self (l : List (String × Session)) (k : String)
    (v : Session) : hmGet (hmInsert l k v) k = some v := by
  induction l with
  | nil => simp [hmInsert, hmGet]
  | cons hd tl ih =>
    by_cases h : k = hd.1
    · simp [hmInsert, hmGet, h]
    · simp [hmInsert, hmGet, h, ih]

/-- A member of the registry after an insert is an old member or the
inserted pair. -/
theorem mem_hmInsert (l : List (String × Session)) (k : String)
    (v : Session) (q : String × Session) (hq : q ∈ hmInsert l k v) :
    q ∈ l ∨ q = (k, v) := by
  induction l with
  | nil => simp [hmInsert] at hq; exact Or.inr hq
  | cons hd tl ih =>
    by_cases h : k = hd.1
    · simp only [hmInsert, if_pos h] at hq
      rcases List.mem_cons.mp hq with h1 | h1
      · exact Or.inr h1
      · exact Or.inl (List.mem_cons_of_mem hd h1)
    · simp only [hmInsert, if_neg h] at hq
      rcases List.mem_cons.mp hq with h1 | h1
      · exact Or.inl (h1 ▸ List.mem_cons_self hd tl)
      · rcases ih h1 with h2 | h2
        · exact Or.inl (List.mem_cons_of_mem hd h2)
        · exact Or.inr h2

/-- A member of the registry after a removal was a member before. -/
theorem mem_hmRemove (l : List (String × Session)) (k : String)
    (q : String × Session) (hq : q ∈ hmRemove l k) : q ∈ l := by
  induction l with
  | nil => simp [hmRemove] at hq
  | cons hd tl ih =>
    by_cases h : k = hd.1
    · simp only [hmRemove, if_pos h] at hq
      exact List.mem_cons_of_mem hd hq
    · simp only [hmRemove, if_neg h] at hq
      rcases List.mem_cons.mp hq with h1 | h1
      · exact h1 ▸ List.mem_cons_self hd tl
      · exact List.mem_cons_of_mem hd (ih h1)

/-- A successful lookup yields a member of the registry. -/
theorem hmGet_mem (l : List (String × Session)) (k : String) (v : Session)
    (h : hmGet l k = some v) : (k, v) ∈ l := by
  induction l with
  | nil => simp [hmGet] at h
  | cons hd tl ih =>
    by_cases hk : k = hd.1
    · simp only [hmGet, if_pos hk, Option.some.injEq] at h
      subst hk; subst h
      exact List.mem_cons_self hd tl
    · simp only [hmGet, if_neg hk] at h
      exact List.mem_cons_of_mem hd (ih h)

/-- A freshly constructed session satisfies the log-shape invariant. -/
theorem goodLog_new (init : SessionInit) (now : Nat) :
    goodLog (Session.new init now) := by
  simp [goodLog, Session.new]

/-- Every message-handling step preserves the registry-wide log-shape
invariant. -/
theorem goodCtl_handle_message (c : Control) (m : ControlMsg) (env : Env)
    (r : ControlMsgResponse) (c' : Control) (hc : goodCtl c)
    (h : c.handle_message m env = some (Except.ok (r, c'))) :
    goodCtl c' := by
  cases m with
  | CreateSession init_data =>
    simp only [Control.handle_message, Control.add_session,
      Option.some.injEq, Except.ok.injEq, Prod.mk.injEq] at h
    intro p hp
    rw [← h.2] at hp
    rcases mem_hmInsert c.sessions _ _ p hp with h1 | h1
    · exact hc p h1
    · rw [h1]; exact goodLog_new init_data env.now
  | RemoveSession id =>
    simp only [Control.handle_message, Control.remove_session] at h
    rcases hs : (hmGet c.sessions id).isSome with _ | _ <;>
      simp only [hs, Bool.false_eq_true, ite_true, ite_false,
        Option.some.injEq, Except.ok.injEq, Prod.mk.injEq] at h
    all_goals
      intro p hp
      rw [← h.2] at hp
      exact hc p (mem_hmRemove c.sessions id p hp)
  | AddEvent event auth =>
    simp only [Control.handle_message] at h
    cases hpe : c.process_event event auth env.now env.fsOk with
    | ok c2 =>
      rw [hpe] at h
      simp only [Option.some.injEq, Except.ok.injEq, Prod.mk.injEq] at h
      simp only [Control.process_event] at hpe
      cases hg : hmGet c.sessions auth.ident with
      | some session =>
        rw [hg] at hpe
        by_cases hv : auth.verify session.secret
        · simp only [hv, Bool.not_true, Bool.false_eq_true, ite_false,
            Except.ok.injEq] at hpe
          intro p hp
          rw [← h.2, ← hpe] at hp
          rcases mem_hmInsert c.sessions _ _ p hp with h1 | h1
          · exact hc p h1
          · rw [h1]
            exact goodLog_add_log_entry session event env.now env.fsOk
              (hc (auth.ident, session) (hmGet_mem _ _ _ hg))
        · simp [hv] at hpe
      | none => rw [hg] at hpe; simp at hpe
    | error msg =>
      rw [hpe] at h
      simp only [Option.some.injEq, Except.ok.injEq, Prod.mk.injEq] at h
      rw [← h.2]; exact hc
  | GetEvents sid fe le =>
    simp only [Control.handle_message] at h
    cases hg : c.get_event_list sid fe le with
    | some res =>
      rw [hg] at h
      cases res with
      | ok v =>
        simp only [Option.some.injEq, Except.ok.injEq, Prod.mk.injEq] at h
        rw [← h.2]; exact hc
      | error msg =>
        simp only [Option.some.injEq, Except.ok.injEq, Prod.mk.injEq] at h
        rw [← h.2]; exact hc
    | none => rw [hg] at h; simp at h
  | Cleanup =>
    simp only [Control.handle_message, Control.cleanup,
      Option.some.injEq, Except.ok.injEq, Prod.mk.injEq] at h
    intro p hp
    rw [← h.2] at hp
    simp only at hp
    exact hc p (List.mem_of_mem_filter hp)
  | Shutdown =>
    simp [Control.handle_message] at h

/-- Running a message sequence preserves the registry-wide log-shape
invariant. -/
theorem goodCtl_run (msgs : List (ControlMsg × Env)) (c : Control)
    (hc : goodCtl c) : goodCtl (c.run msgs) := by
  induction msgs generalizing c with
  | nil => simpa [Control.run]
  | cons me rest ih =>
    simp only [Control.run]
    cases hh : c.handle_message me.1 me.2 with
    | some res =>
      cases res with
      | ok rc =>
        exact ih rc.2 (goodCtl_handle_message c me.1 me.2 rc.1 rc.2 hc
          (by rw [hh]))
      | error u => exact hc
    | none => exact hc

/-- Folding characters onto a slash-free accumulator, resetting at each
slash, keeps the accumulator slash-free. -/
theorem foldl_slash_contains (l : List Char) :
    ∀ acc : List Char, acc.contains '/' = false →
    (l.foldl (fun acc c => if c = '/' then [] else acc ++ [c])
      acc).contains '/' = false := by
  induction l with
  | nil => intro acc h; simpa using h
  | cons c rest ih =>
    intro acc h
    simp only [List.foldl]
    by_cases hc : c = '/'
    · rw [if_pos hc]; exact ih [] rfl
    · rw [if_neg hc]
      refine ih (acc ++ [c]) ?_
      simp_all
      exact fun h' => hc h'.symm

/-- The characters after the last slash contain no slash. -/
theorem afterLastSlash_no_slash (l : List Char) :
    (afterLastSlash l).contains '/' = false :=
  foldl_slash_contains l [] rfl

/-- Appending two slash-free character lists gives a slash-free list. -/
theorem contains_append_false (a b : List Char)
    (ha : a.contains '/' = false) (hb : b.contains '/' = false) :
    (a ++ b).contains '/' = false := by
  simp_all [List.mem_append]

/-- Claim C1: for every fresh session and every sequence of accepted
AddEvent calls on it, reading the log from sequence 0 with no upper
bound returns exactly the string renderings of those events in call
order, with length equal to the number of accepted calls; Text events
render verbatim and Raw events render as binary:identifier:length. -/
theorem addEvent_readback_in_order (init : SessionInit) (n0 : Nat)
    (calls : List (Event × Nat × Bool)) :
    (addAll (Session.new init n0) calls).get_log_entries 0 none
        = some (calls.map fun c => c.1.render)
    ∧ (calls.map fun c => c.1.render).length = calls.length
    ∧ (∀ t, (Event.Text t).render = t)
    ∧ (∀ ident d, (Event.Raw ident d).render
        = "binary:" ++ ident ++ ":" ++ toString d.length) := by
  have hlog := addAll_log calls (Session.new init n0) (goodLog_new init n0)
  simp only [show (Session.new init n0).log = [] from rfl,
    List.nil_append, List.length_nil] at hlog
  refine ⟨?_, by simp, fun t => rfl, fun ident d => rfl⟩
  simp only [Session.get_log_entries, hlog]
  rw [enumFrom_filter_ge]
  simp [List.map_map, Function.comp]

/-- Claim C2 counterexample: a range query whose start exceeds its given
end does not yield an empty result; it hits the BTreeMap range panic
(modelled as none). -/
theorem get_log_entries_reversed_range_panics :
    (Session.new initA 0).get_log_entries 2 (some 1) = none := rfl

/-- Claim C2 (amended): reading entries from start with end given and
start at most end yields the renderings of events with sequence in the
half-open interval, and with end omitted the unbounded tail; start
beyond the log length yields an empty result; but when end is given and
start exceeds it the call panics instead of returning an empty result. -/
theorem get_log_entries_range_semantics (init : SessionInit) (n0 : Nat)
    (calls : List (Event × Nat × Bool)) (start : Nat) :
    ((addAll (Session.new init n0) calls).get_log_entries start none
        = some ((calls.map fun c => c.1.render).drop start))
    ∧ (∀ e, start ≤ e →
        (addAll (Session.new init n0) calls).get_log_entries start (some e)
          = some (((calls.map fun c => c.1.render).drop start).take
              (e - start)))
    ∧ (∀ e, e < start →
        (addAll (Session.new init n0) calls).get_log_entries start (some e)
          = none) := by
  have hlog := addAll_log calls (Session.new init n0) (goodLog_new init n0)
  simp only [show (Session.new init n0).log = [] from rfl,
    List.nil_append, List.length_nil] at hlog
  refine ⟨?_, ?_, ?_⟩
  · simp only [Session.get_log_entries, hlog]
    rw [enumFrom_filter_ge]
    simp [List.map_map, Function.comp_def]
  · intro e he
    simp only [Session.get_log_entries, hlog]
    rw [if_neg (by omega), enumFrom_filter_between]
    simp [List.map_map, Function.comp_def, Nat.zero_max]
  · intro e he
    simp only [Session.get_log_entries]
    rw [if_pos he]

/-- Claim C2 witness: concrete instances of the amended range
semantics, including a concrete reversed range that panics. -/
theorem get_log_entries_range_semantics_witness :
    ((addAll (Session.new initA 0) callsA).get_log_entries 2 (some 3)
        = some (((callsA.map fun c => c.1.render).drop 2).take (3 - 2)))
    ∧ ((addAll (Session.new initA 0) callsA).get_log_entries 2 (some 0)
        = none) :=
  ⟨(get_log_entries_range_semantics initA 0 callsA 2).2.1 3 (by decide),
   (get_log_entries_range_semantics initA 0 callsA 2).2.2 0 (by decide)⟩

/-- Claim C3: cleanup with a supplied or wall-clock now retains exactly
the sessions whose idle whole-second duration is strictly below their
own timeout, i.e. removes exactly those at or beyond it, and the
Cleanup message always responds Success. -/
theorem cleanup_removes_idle_sessions (c : Control) (at_time : Option Nat)
    (wall : Nat) (p : String × Session) (c2 : Control) (env : Env) :
    (p ∈ (c.cleanup at_time wall).2.sessions ↔
      p ∈ c.sessions ∧
        ¬ (p.2.timeout ≤ durAsSecs (at_time.getD wall -
            p.2.last_updated)))
    ∧ c2.handle_message ControlMsg.Cleanup env
        = some (Except.ok (ControlMsgResponse.Success,
            (c2.cleanup none env.now).2)) := by
  constructor
  · simp [Control.cleanup, List.mem_filter, Nat.not_le]
  · rfl

/-- Claim C4: AddEvent returns Failure both for an unknown session
identifier and for a failing signature, and in both cases the registry
is returned unchanged: no session is created, no log entry is added, no
timestamp is refreshed. -/
theorem addEvent_failure_leaves_state_unchanged (c : Control)
    (evt : Event) (auth : EventAuth) (env : Env) :
    (hmGet c.sessions auth.ident = none →
      c.handle_message (ControlMsg.AddEvent evt auth) env
        = some (Except.ok (ControlMsgResponse.Failure, c)))
    ∧ (∀ s, hmGet c.sessions auth.ident = some s →
        auth.verify s.secret = false →
        c.handle_message (ControlMsg.AddEvent evt auth) env
          = some (Except.ok (ControlMsgResponse.Failure, c))) := by
  constructor
  · intro h
    simp [Control.handle_message, Control.process_event, h]
  · intro s hs hv
    simp [Control.handle_message, Control.process_event, hs, hv]

/-- Claim C4 witness: on a registry with one session, both an unknown
ident and a wrong signature produce Failure with the registry
unchanged. -/
theorem addEvent_failure_leaves_state_unchanged_witness :
    (ctlA.handle_message (ControlMsg.AddEvent (Event.Text "A")
        ⟨"404", "x"⟩) envA
      = some (Except.ok (ControlMsgResponse.Failure, ctlA)))
    ∧ (ctlA.handle_message (ControlMsg.AddEvent (Event.Text "A")
        ⟨"1", "wrong"⟩) envA
      = some (Except.ok (ControlMsgResponse.Failure, ctlA))) :=
  ⟨(addEvent_failure_leaves_state_unchanged ctlA (Event.Text "A")
      ⟨"404", "x"⟩ envA).1 (by decide),
   (addEvent_failure_leaves_state_unchanged ctlA (Event.Text "A")
      ⟨"1", "wrong"⟩ envA).2 (Session.new initA 0) (by decide)
      (by decide)⟩

/-- Claim C5: CreateSession always returns Success, replacing any
session with the same id by the new one; the new session has an empty
log, an unresolved tri-state and a last-activity timestamp equal to
now, and its construction never fails. -/
theorem createSession_replaces_and_initializes (c : Control)
    (init : SessionInit) (env : Env) :
    c.handle_message (ControlMsg.CreateSession init) env
        = some (Except.ok (ControlMsgResponse.Success,
            ⟨hmInsert c.sessions init.id (Session.new init env.now)⟩))
    ∧ hmGet (hmInsert c.sessions init.id (Session.new init env.now))
        init.id = some (Session.new init env.now)
    ∧ (Session.new init env.now).log = []
    ∧ (Session.new init env.now).file_descriptor = TriState.Maybe
    ∧ (Session.new init env.now).last_updated = env.now :=
  ⟨rfl, hmGet_hmInsert_self c.sessions init.id (Session.new init env.now),
   rfl, rfl, rfl⟩

/-- Claim C6: signature verification succeeds exactly when the claimed
signature and the stored secret are equal after trimming whitespace. -/
theorem verify_iff_trimmed_equality (a : EventAuth) (secret : String) :
    a.verify secret = true ↔ strTrim a.signature = strTrim secret := by
  simp [EventAuth.verify]

/-- Claim C7: the sanitized file name takes the substring after the last
slash with a fixed marker, with a literal fallback when that substring
is empty or absent, and the result never contains a slash. -/
theorem safe_filename_sanitizes :
    safe_filename "message-log.txt" = "file_" ++ "message-log.txt"
    ∧ safe_filename "/any/dir/" = "file_binary"
    ∧ safe_filename "" = "file_binary"
    ∧ safe_filename "../../../etc/passwd" = "file_" ++ "passwd"
    ∧ ∀ ident, (safe_filename ident).data.contains '/' = false := by
  refine ⟨by decide, by decide, by decide, by decide, ?_⟩
  intro ident
  unfold safe_filename
  by_cases h : (String.mk (afterLastSlash ident.toList)).isEmpty
  · rw [if_pos h]; decide
  · rw [if_neg h]
    rw [String.data_append]
    exact contains_append_false _ _ rfl
      (afterLastSlash_no_slash ident.toList)

/-- Claim C8: in every registry state reachable by a sequence of
control messages from the initial state, the keys of every session's
event log are exactly the consecutive sequence numbers 0, 1, ...,
len-1. -/
theorem reachable_log_keys_consecutive (msgs : List (ControlMsg × Env))
    (id : String) (s : Session)
    (h : hmGet (Control.new.run msgs).sessions id = some s) :
    s.log.map Prod.fst = List.range s.log.length := by
  have hg := goodCtl_run msgs Control.new
    (by intro p hp; simp [Control.new] at hp)
  exact hg (id, s) (hmGet_mem _ _ _ h)

/-- Claim C8 witness: the session produced by creating a session and
posting one accepted event has log keys 0..len-1. -/
theorem reachable_log_keys_consecutive_witness :
    hmGet (Control.new.run msgsA).sessions "1" = some sessA
    ∧ sessA.log.map Prod.fst = List.range sessA.log.length :=
  ⟨by decide,
   reachable_log_keys_consecutive msgsA "1" sessA (by decide)⟩

/-- Claim C9: cleanup with a now at or before a session's last update
saturates the elapsed duration to zero instead of underflowing, so the
session is retained exactly when its timeout is positive. -/
theorem cleanup_with_past_now_saturates (c : Control) (now wall : Nat)
    (p : String × Session) (h : now ≤ p.2.last_updated) :
    p ∈ (c.cleanup (some now) wall).2.sessions ↔
      p ∈ c.sessions ∧ 0 < p.2.timeout := by
  have hz : now - p.2.last_updated = 0 := Nat.sub_eq_zero_of_le h
  simp [Control.cleanup, List.mem_filter, hz, durAsSecs]

/-- Claim C9 witness: a cleanup instant two seconds before the sample
session's last update retains it thanks to its positive timeout. -/
theorem cleanup_with_past_now_saturates_witness :
    ("1", sessB) ∈ (ctlB.cleanup (some 3000000000) 0).2.sessions ↔
      ("1", sessB) ∈ ctlB.sessions ∧ 0 < sessB.timeout :=
  cleanup_with_past_now_saturates ctlB 3000000000 0 ("1", sessB)
    (by decide)

/-- Claim C10: handling a GetEvents message that produces a response
leaves the registry, and hence every session, unchanged, whether the
response is EventsData or Failure. -/
theorem getEvents_read_only (c : Control) (sid : String) (fe le : Nat)
    (env : Env) (r : Except Unit (ControlMsgResponse × Control))
    (h : c.handle_message (ControlMsg.GetEvents sid fe le) env = some r) :
    (∃ v, r = Except.ok (ControlMsgResponse.EventsData v, c))
    ∨ r = Except.ok (ControlMsgResponse.Failure, c) := by
  simp only [Control.handle_message] at h
  cases hg : c.get_event_list sid fe le with
  | some res =>
    rw [hg] at h
    cases res with
    | ok v =>
      simp only [Option.some.injEq] at h
      exact Or.inl ⟨v, h.symm⟩
    | error msg =>
      simp only [Option.some.injEq] at h
      exact Or.inr h.symm
  | none => rw [hg] at h; simp at h

/-- Claim C10 witness: a GetEvents on the empty registry responds
Failure with the registry unchanged. -/
theorem getEvents_read_only_witness :
    (∃ v, (Except.ok (ControlMsgResponse.Failure, Control.new) :
        Except Unit (ControlMsgResponse × Control))
      = Except.ok (ControlMsgResponse.EventsData v, Control.new))
    ∨ (Except.ok (ControlMsgResponse.Failure, Control.new) :
        Except Unit (ControlMsgResponse × Control))
      = Except.ok (ControlMsgResponse.Failure, Control.new) :=
  getEvents_read_only Control.new "x" 0 0 envA
    (Except.ok (ControlMsgResponse.Failure, Control.new)) rfl

end InstallerWebhook
